import Mathlib

/-!
Verification of `src/mainCode/slice_recordings.py`.

The module slices elicited speech recordings: it denoises a clip, builds an
RMS energy envelope, expands left and right from the loudest frame with a
bounded-pause search, applies a lexical end extension, converts frames to
times, and validates reaction time and duration against an acceptance window.

The embedding below mirrors the Python source.  Energies, thresholds and
times are rationals (the source uses floats; all claims are about exact
values).  The two `while` loops of the boundary search are modelled with an
explicit fuel parameter returning `Option`: `none` means the loop has not
terminated within the given fuel, so non-termination of the source loop is
expressed as `∀ fuel, loop fuel = none`.  Calls into third-party libraries
(librosa, noisereduce, soundfile, the filesystem) are modelled at their
call boundary: the RMS envelope, sample count and sample rate that librosa
would produce are carried as data on each file, and `librosa.frames_to_time`
(called in the source without an `sr` argument, hence using librosa's
default rate 22050) is the function `framesToTimeAt`, including Python's
negative-index semantics for `t[start]`.
-/

set_option allowUnsafeReducibility true
attribute [semireducible] Rat.mul Rat.sub Rat.add Rat.inv

namespace SliceRecordings

/-- An energy envelope: the per-frame RMS values `rms_sound`. -/
abbrev Env := List ℚ

/-- `FRAME_SIZE = 1024` (source line 25). -/
def FRAME_SIZE : ℕ := 1024

/-- `HOP_LENGTH = 256` (source line 26). -/
def HOP_LENGTH : ℕ := 256

/-- `THRESHOLD = 0.015` (source line 29). -/
def THRESHOLD : ℚ := 15/1000

/-- `THRESHOLD_END = 0.015` (source line 30). -/
def THRESHOLD_END : ℚ := 15/1000

/-- `MAX_PAUSE_FRAMES = 20` (source line 33). -/
def MAX_PAUSE_FRAMES : ℕ := 20

/-- `NORMALIZE_RMS = True` (source line 36). -/
def NORMALIZE_RMS : Bool := true

/-- librosa's default sample rate, used by `librosa.frames_to_time` when the
source omits the `sr` keyword (line 81) and by `librosa.load` when loading
(line 133). -/
def LIBROSA_SR : ℚ := 22050

/-- `rms_sound[i]` for an integer index.  Every access performed by the
source loops is guarded to be in range, so the out-of-range default is
never reached on the executed paths. -/
def rmsAt (e : Env) (i : ℤ) : ℚ :=
  if h : 0 ≤ i ∧ i.toNat < e.length then e.get ⟨i.toNat, h.2⟩ else 0

/-- `np.max(rms_sound)` on a nonempty list (0 on the empty list). -/
def maxE : Env → ℚ
  | [] => 0
  | x :: xs => xs.foldl max x

/-- `np.min(rms_sound)` on a nonempty list (0 on the empty list). -/
def minE : Env → ℚ
  | [] => 0
  | x :: xs => xs.foldl min x

/-- `(rms_sound - np.min(rms_sound)) / (np.max(rms_sound) - np.min(rms_sound))`
(source line 78). -/
def normalizeEnv (e : Env) : Env :=
  e.map fun x => (x - minE e) / (maxE e - minE e)

/-- Loop of `np.argmax`: scan the tail, keeping the first index of the
strictly largest value seen so far. -/
def argmaxGo : List ℚ → ℕ → ℕ → ℚ → ℕ
  | [], _, best, _ => best
  | x :: xs, i, best, bestv =>
      if bestv < x then argmaxGo xs (i + 1) i x else argmaxGo xs (i + 1) best bestv

/-- `np.argmax(rms_sound)` (source line 83): index of the first maximum. -/
def argmax : Env → ℕ
  | [] => 0
  | x :: xs => argmaxGo xs 1 0 x

/-- Inner probe of the left expansion (source lines 92-94):
`while start - count >= 0 and rms_sound[start-count] < threshold and count < MAX_PAUSE_FRAMES: count += 1`.
The fuel is the remaining allowance `MAX_PAUSE_FRAMES - count`; exhausted
fuel corresponds exactly to `count == MAX_PAUSE_FRAMES`. -/
def probeLeftGo (e : Env) (thr : ℚ) (start : ℤ) : ℕ → ℕ → ℕ
  | 0, count => count
  | fuel + 1, count =>
      if 0 ≤ start - count ∧ rmsAt e (start - count) < thr then
        probeLeftGo e thr start fuel (count + 1)
      else count

/-- The probe count of the left expansion, started at `count = 0`. -/
def probeLeft (e : Env) (thr : ℚ) (cap : ℕ) (start : ℤ) : ℕ :=
  probeLeftGo e thr start cap 0

/-- Outer loop of the left expansion (source lines 86-98), with fuel.
`none` means the loop did not terminate within `fuel` iterations; `some s`
is the final value of `start`.  Setting `flag = False` in the source exits
the loop with `start` unchanged, which is modelled by returning `some start`
at that branch. -/
def leftLoopGo (e : Env) (thr : ℚ) (cap : ℕ) : ℕ → ℤ → Option ℤ
  | 0, _ => none
  | fuel + 1, start =>
      if 0 ≤ start then
        if thr < rmsAt e start then
          leftLoopGo e thr cap fuel (start - 1)
        else
          if start - probeLeft e thr cap start = -1 ∨ probeLeft e thr cap start = cap then
            some start
          else
            leftLoopGo e thr cap fuel (start - probeLeft e thr cap start)
      else some start

/-- Inner probe of the right expansion (source lines 107-109):
`while end + count < rms_sound.size and rms_sound[end+count] < threshold_end and count < MAX_PAUSE_FRAMES: count += 1`. -/
def probeRightGo (e : Env) (thr : ℚ) (endF : ℤ) : ℕ → ℕ → ℕ
  | 0, count => count
  | fuel + 1, count =>
      if endF + count < (e.length : ℤ) ∧ rmsAt e (endF + count) < thr then
        probeRightGo e thr endF fuel (count + 1)
      else count

/-- The probe count of the right expansion, started at `count = 0`. -/
def probeRight (e : Env) (thr : ℚ) (cap : ℕ) (endF : ℤ) : ℕ :=
  probeRightGo e thr endF cap 0

/-- Outer loop of the right expansion (source lines 101-113), with fuel. -/
def rightLoopGo (e : Env) (thr : ℚ) (cap : ℕ) : ℕ → ℤ → Option ℤ
  | 0, _ => none
  | fuel + 1, endF =>
      if endF < (e.length : ℤ) then
        if thr < rmsAt e endF then
          rightLoopGo e thr cap fuel (endF + 1)
        else
          if endF + probeRight e thr cap endF = (e.length : ℤ) ∨ probeRight e thr cap endF = cap then
            some endF
          else
            rightLoopGo e thr cap fuel (endF + probeRight e thr cap endF)
      else some endF

/-- `word[-1] != 'a' and ... != 'u'` negated: membership of the last
character in the vowel set of source line 116. -/
def isVowel (c : Char) : Bool :=
  c = 'a' ∨ c = 'e' ∨ c = 'i' ∨ c = 'o' ∨ c = 'u'

/-- Lexical end extension (source lines 116-119): a word whose last
character is not a vowel gets `end += 12`, then `end = size - 1` when
`end >= size`.  `word[-1]` on the empty word raises in Python; the default
character here is only reached in that never-executed situation. -/
def lexicalEnd (L : ℕ) (word : List Char) (endF : ℤ) : ℤ :=
  if isVowel (word.getLastD '?') then endF
  else if (L : ℤ) ≤ endF + 12 then (L : ℤ) - 1 else endF + 12

/-- `t[i]` where `t = librosa.frames_to_time(range(n), hop_length=HOP_LENGTH)`
(source line 81): `t` has one entry per sample of the denoised signal and
`t[j] = j * HOP_LENGTH / 22050` — the source omits `sr`, so librosa's
default 22050 is used, not the clip's rate.  Python indexing makes `t[i]`
for negative `i` read from the end of the array. -/
def framesToTimeAt (n : ℕ) (i : ℤ) : ℚ :=
  (((if i < 0 then (n : ℤ) + i else i) : ℤ) : ℚ) * (HOP_LENGTH : ℚ) / LIBROSA_SR

/-- First component of the value returned by the slicing function: either
the scalar sentinel `-1` (degenerate envelope, source line 74) or the slice
`audio_file[start * HOP_LENGTH : end * HOP_LENGTH + FRAME_SIZE]` of the
original waveform, recorded by its frame bounds (source line 121). -/
inductive AudioOut
  | sentinel
  | slice (startF endF : ℤ)
deriving DecidableEq

/-- The envelope the expansions scan: min-max normalized when the
`normalize_rms` flag is on (source lines 77-78). -/
def envForSearch (e : Env) (normalize : Bool) : Env :=
  if normalize then normalizeEnv e else e

/-- `slice_noise_reduced_audio_files_byt` (source lines 56-123), from the
point where the envelope exists: the two noise-suppression passes and the
RMS call (lines 66-70) are library calls, so the function here receives the
envelope `e` they produce together with `n = len(reduced_noise)` (the sample
count, line 80).  `audio_rate` is the sample-rate argument of the source
function; the source uses it only inside the library calls, never in the
returned times.  `fuel` bounds both expansion loops; `none` means one of
them did not terminate within `fuel` iterations. -/
def slice_noise_reduced_audio_files_byt (fuel : ℕ) (e : Env) (n : ℕ) (word : List Char)
    (audio_rate : ℚ) (thr thrEnd : ℚ) (normalize : Bool) : Option (AudioOut × ℚ × ℚ) :=
  if maxE e - minE e = 0 then some (AudioOut.sentinel, -1, -1)
  else
    match leftLoopGo (envForSearch e normalize) thr MAX_PAUSE_FRAMES fuel
            (argmax (envForSearch e normalize)),
          rightLoopGo (envForSearch e normalize) thrEnd MAX_PAUSE_FRAMES fuel
            (argmax (envForSearch e normalize)) with
    | some s, some en =>
        some (AudioOut.slice s (lexicalEnd (envForSearch e normalize).length word en),
              framesToTimeAt n s,
              framesToTimeAt n (lexicalEnd (envForSearch e normalize).length word en)
                - framesToTimeAt n s)
    | _, _ => none

/-- The extension `.wav` as a character list. -/
def wavExt : List Char := ['.', 'w', 'a', 'v']

/-- `s.endswith(suffix)` on character lists. -/
def endsWithL (s suf : List Char) : Bool := suf.isSuffixOf s

/-- Tail of the regex `\((.*?)\)` (source line 136): characters up to the
first closing parenthesis, `none` when there is none. -/
def parenTail : List Char → Option (List Char)
  | [] => none
  | c :: rest => if c = ')' then some [] else (parenTail rest).map fun w => c :: w

/-- `re.search(r'\((.*?)\)', file_name)` followed by `.group(1)` (source
lines 136-139): the content between the first opening parenthesis that has
a closing parenthesis after it and the first such closing parenthesis.
`none` models the `AttributeError` raised when no match exists. -/
def extractParen : List Char → Option (List Char)
  | [] => none
  | c :: rest => if c = '(' then parenTail rest else extractParen rest

/-- The transliteration performed by `unidecode` (source line 207) on the
characters that occur in the words of this data set: accented Latin letters
map to their base letter, everything else is unchanged. -/
def uniChar (c : Char) : Char :=
  if c = 'é' ∨ c = 'è' ∨ c = 'ê' ∨ c = 'ë' then 'e'
  else if c = 'É' ∨ c = 'È' ∨ c = 'Ê' then 'E'
  else if c = 'á' ∨ c = 'à' ∨ c = 'â' then 'a'
  else if c = 'Á' ∨ c = 'À' then 'A'
  else if c = 'í' ∨ c = 'î' then 'i'
  else if c = 'ó' ∨ c = 'ô' then 'o'
  else if c = 'ú' ∨ c = 'û' then 'u'
  else c

/-- `unidecode(key).lower()` (source line 207). -/
def normalizeKey (w : List Char) : List Char :=
  (w.map uniChar).map Char.toLower

/-- The dictionary comprehension of source line 207: every key of the
reference table is normalized. -/
def buildRobotTimes (tbl : List (List Char × ℚ)) : List (List Char × ℚ) :=
  tbl.map fun p => (normalizeKey p.1, p.2)

/-- `robot_times[word]` as a partial lookup: `none` models the `KeyError`
raised on a missing key.  A Python dict keeps the last binding of a
duplicated key, hence the search from the rear. -/
def lookupQ (t : List (List Char × ℚ)) (k : List Char) : Option ℚ :=
  (t.reverse.find? fun p => p.1 == k).map fun p => p.2

/-- `to_include` (source line 148):
`not (real_onset > 2 or real_onset < -0.5 or total_duration < 0.3 or total_duration > 3)`. -/
def to_include (r d : ℚ) : Bool :=
  !(decide (2 < r) || decide (r < -(1/2)) || decide (d < 3/10) || decide (3 < d))

/-- What `librosa.load` plus the two denoising passes and the RMS call
deliver for one readable file: the envelope of the twice-denoised signal,
the denoised signal's sample count, and the sample rate. -/
structure AudioData where
  env : Env
  n : ℕ
  sr : ℚ
deriving DecidableEq

/-- A file met by the directory walk: its name and the outcome of loading
its audio (`Except.error` models a corrupt or unreadable file, whose load
raises). -/
structure WavFile where
  name : List Char
  audio : Except Unit AudioData

/-- The uncaught Python exceptions that can escape per-file processing:
a failing `librosa.load` (line 133), `match.group(1)` on a failed regex
match (line 139), `robot_times[word]` on a missing key (line 146), and the
caller's unpacking of `None` (line 192). -/
inductive PErr
  | loadError
  | regexError
  | keyError
  | unpackError
deriving DecidableEq

/-- The feature row `[repr(output_file), real_onset, total_duration]`
(source line 152); the path bookkeeping is carried as the file name. -/
structure FeatRec where
  fileName : List Char
  reaction : ℚ
  dur : ℚ
deriving DecidableEq

instance instDecidableEqExcept {ε α : Type} [DecidableEq ε] [DecidableEq α] :
    DecidableEq (Except ε α) := fun a b =>
  match a, b with
  | Except.error x, Except.error y =>
      if h : x = y then Decidable.isTrue (by rw [h])
      else Decidable.isFalse (fun hh => h (Except.error.inj hh))
  | Except.error _, Except.ok _ => Decidable.isFalse (fun hh => Except.noConfusion hh)
  | Except.ok _, Except.error _ => Decidable.isFalse (fun hh => Except.noConfusion hh)
  | Except.ok x, Except.ok y =>
      if h : x = y then Decidable.isTrue (by rw [h])
      else Decidable.isFalse (fun hh => h (Except.ok.inj hh))

/-- `process_wav_file` (source lines 126-160).  The outer `Option` is loop
fuel (`none`: the slicing loops did not terminate); `Except.error` is an
uncaught exception; `Except.ok none` is the bare `return` of line 131
(Python `None`); `Except.ok (some (features, to_include))` is the normal
return of line 160. -/
def process_wav_file (robot : List (List Char × ℚ)) (fuel : ℕ) (f : WavFile) :
    Option (Except PErr (Option (FeatRec × Bool))) :=
  if endsWithL f.name wavExt = true then
    match f.audio with
    | Except.error _ => some (Except.error PErr.loadError)
    | Except.ok a =>
      match extractParen f.name with
      | none => some (Except.error PErr.regexError)
      | some word =>
        match slice_noise_reduced_audio_files_byt fuel a.env a.n word a.sr
              THRESHOLD THRESHOLD_END NORMALIZE_RMS with
        | none => none
        | some (_, onset, dur) =>
          match lookupQ robot word with
          | none => some (Except.error PErr.keyError)
          | some d =>
            some (Except.ok (some (⟨f.name, onset - d, dur⟩, to_include (onset - d) dur)))
  else some (Except.ok none)

/-- Body of the walk in `copy_directory_with_wav_processing` (source lines
180-197): files passing the case-insensitive `.wav` filter are processed;
an exception escaping `process_wav_file`, or the `TypeError` from unpacking
a `None` result, aborts the batch; otherwise the feature row is appended
exactly when the inclusion flag is set. -/
def copy_directory_go (robot : List (List Char × ℚ)) (fuel : ℕ) :
    List WavFile → List FeatRec → Option (Except PErr (List FeatRec))
  | [], acc => some (Except.ok acc)
  | f :: rest, acc =>
    if endsWithL (f.name.map Char.toLower) wavExt = true then
      match process_wav_file robot fuel f with
      | none => none
      | some (Except.error err) => some (Except.error err)
      | some (Except.ok none) => some (Except.error PErr.unpackError)
      | some (Except.ok (some (feat, inc))) =>
          copy_directory_go robot fuel rest (if inc then acc ++ [feat] else acc)
    else copy_directory_go robot fuel rest acc

/-- `copy_directory_with_wav_processing` (source lines 167-198) on the list
of files produced by the walk, starting from an empty feature table. -/
def copy_directory_with_wav_processing (robot : List (List Char × ℚ)) (fuel : ℕ)
    (files : List WavFile) : Option (Except PErr (List FeatRec)) :=
  copy_directory_go robot fuel files []

/-- The worked-example envelope of the specification. -/
def E10 : Env := [1/100, 1/50, 1/2, 9/10, 2/5, 1/50, 1/100, 1/100, 3/5, 1/20]

/-- A state of the left expansion from which the loop never advances: the
current frame's energy is not above the threshold (so the probe branch is
taken) yet the probe count is 0 (the frame is not strictly below the
threshold either), and neither termination condition fires, so `start` is
rewritten to itself forever. -/
theorem leftLoopGo_fixed (e : Env) (thr : ℚ) (cap : ℕ) (p : ℤ)
    (h0 : 0 ≤ p) (h1 : ¬ thr < rmsAt e p)
    (h2 : ¬ (p - probeLeft e thr cap p = -1 ∨ probeLeft e thr cap p = cap))
    (h3 : probeLeft e thr cap p = 0) :
    ∀ fuel, leftLoopGo e thr cap fuel p = none := by
  intro fuel
  induction fuel with
  | zero => rfl
  | succ n ih =>
      have step : leftLoopGo e thr cap (n + 1) p
          = leftLoopGo e thr cap n (p - probeLeft e thr cap p) := by
        simp only [leftLoopGo]
        rw [if_pos h0, if_neg h1, if_neg h2]
      rw [step, h3]
      simpa using ih

/-- Mirror of `leftLoopGo_fixed` for the right expansion. -/
theorem rightLoopGo_fixed (e : Env) (thr : ℚ) (cap : ℕ) (p : ℤ)
    (h0 : p < (e.length : ℤ)) (h1 : ¬ thr < rmsAt e p)
    (h2 : ¬ (p + probeRight e thr cap p = (e.length : ℤ) ∨ probeRight e thr cap p = cap))
    (h3 : probeRight e thr cap p = 0) :
    ∀ fuel, rightLoopGo e thr cap fuel p = none := by
  intro fuel
  induction fuel with
  | zero => rfl
  | succ n ih =>
      have step : rightLoopGo e thr cap (n + 1) p
          = rightLoopGo e thr cap n (p + probeRight e thr cap p) := by
        simp only [rightLoopGo]
        rw [if_pos h0, if_neg h1, if_neg h2]
      rw [step, h3]
      simpa using ih

/-- Claim C1: the spec asserts that both bounded-pause expansions terminate
for every finite non-degenerate envelope, threshold and pause cap, including
envelopes containing a frame whose energy is exactly equal to the threshold.
This is false of the code: on the envelope `[0.015, 1]` with threshold
`0.015` the left expansion reaches index 0, whose energy equals the
threshold; the outer test uses `>` (so the probe branch is taken) but the
probe uses `<` (so the probe count is 0), `start` never changes, and the
loop runs forever — symmetrically for the right expansion on `[1, 0.015]`.
No amount of fuel makes either loop reach its terminal state. -/
theorem C1_search_diverges_on_threshold_equal_frame :
    ∀ fuel : ℕ,
      leftLoopGo [15/1000, 1] (15/1000) 20 fuel 1 = none ∧
      rightLoopGo [1, 15/1000] (15/1000) 20 fuel 0 = none := by
  have hl : ∀ m, leftLoopGo [15/1000, 1] (15/1000) 20 m 0 = none :=
    leftLoopGo_fixed _ _ _ _ (by decide) (by decide) (by decide) (by decide)
  have hr : ∀ m, rightLoopGo [1, 15/1000] (15/1000) 20 m 1 = none :=
    rightLoopGo_fixed _ _ _ _ (by decide) (by decide) (by decide) (by decide)
  intro fuel
  cases fuel with
  | zero => exact ⟨rfl, rfl⟩
  | succ n =>
      constructor
      · have step : leftLoopGo [15/1000, 1] (15/1000) 20 (n + 1) 1
            = leftLoopGo [15/1000, 1] (15/1000) 20 n (1 - 1) := by
          simp only [leftLoopGo]
          rw [if_pos (by decide), if_pos (by decide)]
        rw [step]
        simpa using hl n
      · have step : rightLoopGo [1, 15/1000] (15/1000) 20 (n + 1) 0
            = rightLoopGo [1, 15/1000] (15/1000) 20 n (0 + 1) := by
          simp only [rightLoopGo]
          rw [if_pos (by decide), if_pos (by decide)]
        rw [step]
        simpa using hr n

/-- Claim C2, counterexample: on the worked-example envelope with both
thresholds `0.015` and cap 20, the right expansion exits with
`end_frame = 10` (the envelope length), not 9 as the claim states: frame 9
has energy `0.05 > 0.015`, so the loop increments past the last index and
stops on the bounds check. -/
theorem C2_worked_example_end_not_nine :
    rightLoopGo E10 (15/1000) 20 100 3 = some 10 ∧ (10 : ℤ) ≠ 9 := by
  exact ⟨by decide, by decide⟩

/-- Claim C2, amended: on the worked-example envelope the loudest frame is
index 3, the left expansion returns `start_frame = 0`, and the right
expansion returns `end_frame = 10`, one past the last index (the spec's
expected pair (0, 9) has the correct start but the wrong end). -/
theorem C2_worked_example_boundaries :
    argmax E10 = 3 ∧
    leftLoopGo E10 (15/1000) 20 100 3 = some 0 ∧
    rightLoopGo E10 (15/1000) 20 100 3 = some 10 := by
  exact ⟨by decide, by decide, by decide⟩

/-- The probe count never exceeds its starting count plus its fuel. -/
theorem probeLeftGo_le (e : Env) (thr : ℚ) (p : ℤ) :
    ∀ fuel count, probeLeftGo e thr p fuel count ≤ count + fuel := by
  intro fuel
  induction fuel with
  | zero => intro count; simp [probeLeftGo]
  | succ n ih =>
      intro count
      simp only [probeLeftGo]
      split
      · have := ih (count + 1)
        omega
      · omega

/-- Every index passed over by the left probe is in range and strictly
below the threshold. -/
theorem probeLeftGo_below (e : Env) (thr : ℚ) (p : ℤ) :
    ∀ fuel count j, count ≤ j → j < probeLeftGo e thr p fuel count →
      0 ≤ p - j ∧ rmsAt e (p - j) < thr := by
  intro fuel
  induction fuel with
  | zero =>
      intro count j hcj hj
      simp only [probeLeftGo] at hj
      omega
  | succ n ih =>
      intro count j hcj hj
      simp only [probeLeftGo] at hj
      by_cases h : 0 ≤ p - (count : ℤ) ∧ rmsAt e (p - count) < thr
      · rw [if_pos h] at hj
        rcases Nat.eq_or_lt_of_le hcj with rfl | hlt
        · exact h
        · exact ih (count + 1) j hlt hj
      · rw [if_neg h] at hj
        omega

/-- When the left probe stops below its fuel allowance, the frame it
stopped on fails the probe condition. -/
theorem probeLeftGo_stop (e : Env) (thr : ℚ) (p : ℤ) :
    ∀ fuel count, probeLeftGo e thr p fuel count < count + fuel →
      ¬ (0 ≤ p - (probeLeftGo e thr p fuel count : ℤ) ∧
         rmsAt e (p - probeLeftGo e thr p fuel count) < thr) := by
  intro fuel
  induction fuel with
  | zero =>
      intro count h
      simp only [probeLeftGo] at h
      omega
  | succ n ih =>
      intro count h
      simp only [probeLeftGo] at h ⊢
      by_cases hc : 0 ≤ p - (count : ℤ) ∧ rmsAt e (p - count) < thr
      · rw [if_pos hc] at h ⊢
        exact ih (count + 1) (by omega)
      · rw [if_neg hc] at h ⊢
        exact hc

/-- Mirror of `probeLeftGo_le` for the right probe. -/
theorem probeRightGo_le (e : Env) (thr : ℚ) (q : ℤ) :
    ∀ fuel count, probeRightGo e thr q fuel count ≤ count + fuel := by
  intro fuel
  induction fuel with
  | zero => intro count; simp [probeRightGo]
  | succ n ih =>
      intro count
      simp only [probeRightGo]
      split
      · have := ih (count + 1)
        omega
      · omega

/-- Mirror of `probeLeftGo_below` for the right probe. -/
theorem probeRightGo_below (e : Env) (thr : ℚ) (q : ℤ) :
    ∀ fuel count j, count ≤ j → j < probeRightGo e thr q fuel count →
      q + j < (e.length : ℤ) ∧ rmsAt e (q + j) < thr := by
  intro fuel
  induction fuel with
  | zero =>
      intro count j hcj hj
      simp only [probeRightGo] at hj
      omega
  | succ n ih =>
      intro count j hcj hj
      simp only [probeRightGo] at hj
      by_cases h : q + (count : ℤ) < (e.length : ℤ) ∧ rmsAt e (q + count) < thr
      · rw [if_pos h] at hj
        rcases Nat.eq_or_lt_of_le hcj with rfl | hlt
        · exact h
        · exact ih (count + 1) j hlt hj
      · rw [if_neg h] at hj
        omega

/-- Mirror of `probeLeftGo_stop` for the right probe. -/
theorem probeRightGo_stop (e : Env) (thr : ℚ) (q : ℤ) :
    ∀ fuel count, probeRightGo e thr q fuel count < count + fuel →
      ¬ (q + (probeRightGo e thr q fuel count : ℤ) < (e.length : ℤ) ∧
         rmsAt e (q + probeRightGo e thr q fuel count) < thr) := by
  intro fuel
  induction fuel with
  | zero =>
      intro count h
      simp only [probeRightGo] at h
      omega
  | succ n ih =>
      intro count h
      simp only [probeRightGo] at h ⊢
      by_cases hc : q + (count : ℤ) < (e.length : ℤ) ∧ rmsAt e (q + count) < thr
      · rw [if_pos hc] at h ⊢
        exact ih (count + 1) (by omega)
      · rw [if_neg hc] at h ⊢
        exact hc

/-- The final `start` of the left expansion never drops below -1. -/
theorem leftLoopGo_ge_neg_one (e : Env) (thr : ℚ) (cap : ℕ) :
    ∀ fuel start s, -1 ≤ start → leftLoopGo e thr cap fuel start = some s → -1 ≤ s := by
  intro fuel
  induction fuel with
  | zero =>
      intro start s _ h
      simp [leftLoopGo] at h
  | succ n ih =>
      intro start s hst h
      simp only [leftLoopGo] at h
      by_cases h0 : 0 ≤ start
      · rw [if_pos h0] at h
        by_cases h1 : thr < rmsAt e start
        · rw [if_pos h1] at h
          exact ih (start - 1) s (by omega) h
        · rw [if_neg h1] at h
          by_cases h2 : start - (probeLeft e thr cap start : ℤ) = -1 ∨
              probeLeft e thr cap start = cap
          · rw [if_pos h2] at h
            injection h with h3
            omega
          · rw [if_neg h2] at h
            have hge : -1 ≤ start - (probeLeft e thr cap start : ℤ) := by
              have hPL : probeLeftGo e thr start cap 0 = probeLeft e thr cap start := rfl
              rcases Nat.eq_zero_or_pos (probeLeft e thr cap start) with hz | hpos
              · rw [hz]
                omega
              · obtain ⟨hj, _⟩ := probeLeftGo_below e thr start cap 0
                  (probeLeft e thr cap start - 1) (Nat.zero_le _) (by omega)
                omega
            exact ih _ s hge h
      · rw [if_neg h0] at h
        injection h with h3
        omega

/-- The final `end` of the right expansion never exceeds the envelope
length. -/
theorem rightLoopGo_le_length (e : Env) (thr : ℚ) (cap : ℕ) :
    ∀ fuel q en, q ≤ (e.length : ℤ) → rightLoopGo e thr cap fuel q = some en →
      en ≤ (e.length : ℤ) := by
  intro fuel
  induction fuel with
  | zero =>
      intro q en _ h
      simp [rightLoopGo] at h
  | succ n ih =>
      intro q en hq h
      simp only [rightLoopGo] at h
      by_cases h0 : q < (e.length : ℤ)
      · rw [if_pos h0] at h
        by_cases h1 : thr < rmsAt e q
        · rw [if_pos h1] at h
          exact ih (q + 1) en (by omega) h
        · rw [if_neg h1] at h
          by_cases h2 : q + (probeRight e thr cap q : ℤ) = (e.length : ℤ) ∨
              probeRight e thr cap q = cap
          · rw [if_pos h2] at h
            injection h with h3
            omega
          · rw [if_neg h2] at h
            have hle : q + (probeRight e thr cap q : ℤ) ≤ (e.length : ℤ) := by
              have hPR : probeRightGo e thr q cap 0 = probeRight e thr cap q := rfl
              rcases Nat.eq_zero_or_pos (probeRight e thr cap q) with hz | hpos
              · rw [hz]
                omega
              · obtain ⟨hj, _⟩ := probeRightGo_below e thr q cap 0
                  (probeRight e thr cap q - 1) (Nat.zero_le _) (by omega)
                omega
            exact ih _ en hle h
      · rw [if_neg h0] at h
        injection h with h3
        omega

/-- `argmaxGo` keeps its answer below the scanned range's upper end. -/
theorem argmaxGo_lt (xs : List ℚ) :
    ∀ i best bestv, best < i → argmaxGo xs i best bestv < i + xs.length := by
  induction xs with
  | nil =>
      intro i best bestv h
      simp only [argmaxGo, List.length_nil]
      omega
  | cons x xs ih =>
      intro i best bestv h
      simp only [argmaxGo, List.length_cons]
      split
      · have := ih (i + 1) i x (by omega)
        omega
      · have := ih (i + 1) best bestv (by omega)
        omega

/-- The index of the loudest frame is at most the envelope length. -/
theorem argmax_le (e : Env) : argmax e ≤ e.length := by
  cases e with
  | nil => simp [argmax]
  | cons x xs =>
      have := argmaxGo_lt xs 1 0 x (by omega)
      simp only [argmax, List.length_cons]
      omega

/-- The lexical end extension never moves the end past the envelope
length. -/
theorem lexicalEnd_le (L : ℕ) (word : List Char) (en : ℤ) (h : en ≤ (L : ℤ)) :
    lexicalEnd L word en ≤ (L : ℤ) := by
  unfold lexicalEnd
  split
  · exact h
  · split
    · omega
    · omega

/-- Claim C3, counterexample: on the non-degenerate envelope
`[0.75, 1, 0.5, 1]` (normalized to `[0.5, 1, 0, 1]`) with the vowel-final
word "a", the left expansion walks off the front of the envelope and
returns `start_frame = -1`, and the right expansion (bridging the interior
dip) exits with `end_frame = 4 = L`, which the vowel branch leaves
unclamped — so neither `start_frame ≥ 0` nor `end_frame ≤ L - 1` holds.
The returned onset then reads `t[-1]` through Python's negative indexing,
yielding a time near the clip's end and a negative duration. -/
theorem C3_boundary_escapes_range :
    slice_noise_reduced_audio_files_byt 100 [3/4, 1, 1/2, 1] 1000 ['a'] 22050
        THRESHOLD THRESHOLD_END true
      = some (AudioOut.slice (-1) 4, framesToTimeAt 1000 (-1),
              framesToTimeAt 1000 4 - framesToTimeAt 1000 (-1)) ∧
    ¬ ((0 : ℤ) ≤ -1 ∧ (4 : ℤ) ≤ 3) := by
  exact ⟨by decide, by decide⟩

/-- Claim C3, amended: whenever the two expansions terminate, the start
frame is at least -1 (not 0) and the end frame after the lexical extension
is at most the envelope length L (not L - 1): the source clamps the end
only in the consonant branch and never clamps the start. -/
theorem C3_boundaries_within_relaxed_range (e : Env) (thr thrE : ℚ) (word : List Char)
    (fuelL fuelR : ℕ) (s en : ℤ)
    (hL : leftLoopGo e thr MAX_PAUSE_FRAMES fuelL (argmax e) = some s)
    (hR : rightLoopGo e thrE MAX_PAUSE_FRAMES fuelR (argmax e) = some en) :
    -1 ≤ s ∧ lexicalEnd e.length word en ≤ (e.length : ℤ) := by
  constructor
  · exact leftLoopGo_ge_neg_one e thr MAX_PAUSE_FRAMES fuelL (argmax e) s (by omega) hL
  · have hlen : (argmax e : ℤ) ≤ (e.length : ℤ) := by
      have := argmax_le e
      omega
    have hen : en ≤ (e.length : ℤ) :=
      rightLoopGo_le_length e thrE MAX_PAUSE_FRAMES fuelR (argmax e) en hlen hR
    exact lexicalEnd_le e.length word en hen

/-- Witness for the amended C3 on the worked-example envelope. -/
theorem C3_boundaries_witness :
    -1 ≤ (0 : ℤ) ∧ lexicalEnd 10 ['a'] 10 ≤ (10 : ℤ) :=
  C3_boundaries_within_relaxed_range E10 (15/1000) (15/1000) ['a'] 100 100 0 10
    (by decide) (by decide)

/-- Claim C4, counterexample: on the envelope of twenty below-threshold
frames followed by one loud frame, the left expansion meets the run at
index 19; the run has length 20 = MAX_PAUSE_FRAMES (and also reaches the
envelope's front edge), so the expansion terminates — but the boundary is
fixed at index 19, the first frame OF the below-threshold run, not at
index 20, the frame preceding the run as the claim states. -/
theorem C4_terminating_boundary_inside_run :
    argmax (List.replicate 20 0 ++ [1]) = 20 ∧
    rmsAt (List.replicate 20 0 ++ [1]) 19 < 15/1000 ∧
    leftLoopGo (List.replicate 20 0 ++ [1]) (15/1000) 20 100 20 = some 19 ∧
    (19 : ℤ) ≠ 20 := by
  exact ⟨by decide, by decide, by decide, by decide⟩

/-- Claim C4, amended: for each direction, when the scan sits on a frame
not above threshold, the probe count c is exactly the length of the
strictly-below-threshold run (every probed frame is in range and strictly
below threshold); if neither termination condition fires, the frame
immediately after the run is not below threshold and the loop resumes from
it; if the run length reaches the cap or the run hits the envelope's edge,
the loop terminates with the boundary at the CURRENT frame — the first
frame of the below-threshold run, one frame inside the pause — rather than
at the frame preceding the run. -/
theorem C4_pause_step_characterisation (e : Env) (thr thrE : ℚ) (cap fuel : ℕ)
    (p q : ℤ) (c d : ℕ)
    (hc : c = probeLeft e thr cap p) (hd : d = probeRight e thrE cap q)
    (hp0 : 0 ≤ p) (hp1 : ¬ thr < rmsAt e p)
    (hq0 : q < (e.length : ℤ)) (hq1 : ¬ thrE < rmsAt e q) :
    ((∀ j : ℕ, j < c → 0 ≤ p - j ∧ rmsAt e (p - j) < thr) ∧
     (¬ (p - c = -1 ∨ c = cap) →
        ¬ rmsAt e (p - c) < thr ∧
        leftLoopGo e thr cap (fuel + 1) p = leftLoopGo e thr cap fuel (p - c)) ∧
     ((p - c = -1 ∨ c = cap) → leftLoopGo e thr cap (fuel + 1) p = some p)) ∧
    ((∀ j : ℕ, j < d → q + j < (e.length : ℤ) ∧ rmsAt e (q + j) < thrE) ∧
     (¬ (q + d = (e.length : ℤ) ∨ d = cap) →
        ¬ rmsAt e (q + d) < thrE ∧
        rightLoopGo e thrE cap (fuel + 1) q = rightLoopGo e thrE cap fuel (q + d)) ∧
     ((q + d = (e.length : ℤ) ∨ d = cap) → rightLoopGo e thrE cap (fuel + 1) q = some q)) := by
  subst hc
  subst hd
  refine ⟨⟨?_, ?_, ?_⟩, ?_, ?_, ?_⟩
  · intro j hj
    exact probeLeftGo_below e thr p cap 0 j (Nat.zero_le _) hj
  · intro h2
    have hPL : probeLeftGo e thr p cap 0 = probeLeft e thr cap p := rfl
    have hcle : probeLeft e thr cap p ≤ cap := by
      have := probeLeftGo_le e thr p cap 0
      omega
    have hclt : probeLeft e thr cap p < cap := by
      rcases Nat.eq_or_lt_of_le hcle with heq | hlt
      · exact absurd (Or.inr heq) h2
      · exact hlt
    have hstop := probeLeftGo_stop e thr p cap 0 (by omega)
    have hge : -1 ≤ p - (probeLeft e thr cap p : ℤ) := by
      rcases Nat.eq_zero_or_pos (probeLeft e thr cap p) with hz | hpos
      · rw [hz]
        omega
      · obtain ⟨hj, _⟩ := probeLeftGo_below e thr p cap 0
          (probeLeft e thr cap p - 1) (Nat.zero_le _) (by omega)
        omega
    have hnn : 0 ≤ p - (probeLeft e thr cap p : ℤ) := by
      have hne : p - (probeLeft e thr cap p : ℤ) ≠ -1 := fun h => h2 (Or.inl h)
      omega
    constructor
    · intro hlt2
      exact hstop ⟨hnn, hlt2⟩
    · simp only [leftLoopGo]
      rw [if_pos hp0, if_neg hp1, if_neg h2]
  · intro h2
    simp only [leftLoopGo]
    rw [if_pos hp0, if_neg hp1, if_pos h2]
  · intro j hj
    exact probeRightGo_below e thrE q cap 0 j (Nat.zero_le _) hj
  · intro h2
    have hPR : probeRightGo e thrE q cap 0 = probeRight e thrE cap q := rfl
    have hdle : probeRight e thrE cap q ≤ cap := by
      have := probeRightGo_le e thrE q cap 0
      omega
    have hdlt : probeRight e thrE cap q < cap := by
      rcases Nat.eq_or_lt_of_le hdle with heq | hlt
      · exact absurd (Or.inr heq) h2
      · exact hlt
    have hstop := probeRightGo_stop e thrE q cap 0 (by omega)
    have hlt3 : q + (probeRight e thrE cap q : ℤ) ≤ (e.length : ℤ) := by
      rcases Nat.eq_zero_or_pos (probeRight e thrE cap q) with hz | hpos
      · rw [hz]
        omega
      · obtain ⟨hj, _⟩ := probeRightGo_below e thrE q cap 0
          (probeRight e thrE cap q - 1) (Nat.zero_le _) (by omega)
        omega
    have hin : q + (probeRight e thrE cap q : ℤ) < (e.length : ℤ) := by
      have hne : q + (probeRight e thrE cap q : ℤ) ≠ (e.length : ℤ) := fun h => h2 (Or.inl h)
      omega
    constructor
    · intro hlt2
      exact hstop ⟨hin, hlt2⟩
    · simp only [rightLoopGo]
      rw [if_pos hq0, if_neg hq1, if_neg h2]
  · intro h2
    simp only [rightLoopGo]
    rw [if_pos hq0, if_neg hq1, if_pos h2]

/-- Witness for the amended C4 on the worked-example envelope: at index 0
the left expansion terminates (run reaches the front edge) with the
boundary at 0 itself, and at index 6 the right expansion bridges the
two-frame dip and resumes from index 8. -/
theorem C4_pause_step_witness :
    leftLoopGo E10 (15/1000) 20 8 0 = some 0 ∧
    rightLoopGo E10 (15/1000) 20 8 6 = rightLoopGo E10 (15/1000) 20 7 8 := by
  have h := C4_pause_step_characterisation E10 (15/1000) (15/1000) 20 7 0 6 1 2
    (by decide) (by decide) (by decide) (by decide) (by decide) (by decide)
  refine ⟨h.1.2.2 (by decide), ?_⟩
  have h2 := (h.2.2.1 (by decide)).2
  have h3 : (6 : ℤ) + ((2 : ℕ) : ℤ) = 8 := by norm_num
  rw [h3] at h2
  exact h2

/-- Claim C5, counterexample: on a clip whose envelope is
`[0.01, 0.9, 0.01]` with 600 samples and `audio_rate = 44100`, the returned
duration is `512/22050` — computed with librosa's default sample rate
22050, because the source calls `frames_to_time` without `sr` — whereas
the claim's formula `end·256/audio_rate − onset` gives `512/44100`. -/
theorem C5_duration_ignores_audio_rate :
    slice_noise_reduced_audio_files_byt 100 [1/100, 9/10, 1/100] 600 ['a'] 44100
        THRESHOLD THRESHOLD_END true
      = some (AudioOut.slice 0 2, 0, 512/22050) ∧
    (512/22050 : ℚ) ≠ (2 * 256 : ℚ) / 44100 - 0 := by
  exact ⟨by decide, by decide⟩

/-- Claim C5, amended: for every clip and every `audio_rate`, when the
boundary search terminates with non-negative frames, the returned onset is
`start_frame · 256 / 22050` and the returned duration is
`(end_frame − start_frame) · 256 / 22050`, with 22050 being librosa's
default sample rate: the passed `audio_rate` is ignored by the time
conversion and the claim's formula holds only when `audio_rate = 22050`. -/
theorem slice_nondegenerate_eq (fuel : ℕ) (e : Env) (n : ℕ) (word : List Char)
    (audio_rate thr thrE : ℚ) (normalize : Bool) (s en : ℤ)
    (hnd : ¬ maxE e - minE e = 0)
    (hL : leftLoopGo (envForSearch e normalize) thr MAX_PAUSE_FRAMES fuel
        (argmax (envForSearch e normalize)) = some s)
    (hR : rightLoopGo (envForSearch e normalize) thrE MAX_PAUSE_FRAMES fuel
        (argmax (envForSearch e normalize)) = some en) :
    slice_noise_reduced_audio_files_byt fuel e n word audio_rate thr thrE normalize
      = some (AudioOut.slice s (lexicalEnd (envForSearch e normalize).length word en),
              framesToTimeAt n s,
              framesToTimeAt n (lexicalEnd (envForSearch e normalize).length word en)
                - framesToTimeAt n s) := by
  unfold slice_noise_reduced_audio_files_byt
  rw [if_neg hnd, hL, hR]

theorem C5_times_use_default_sample_rate (e : Env) (n : ℕ) (word : List Char)
    (audio_rate thr thrE : ℚ) (fuel : ℕ) (s en : ℤ)
    (hnd : maxE e - minE e ≠ 0)
    (hL : leftLoopGo (envForSearch e true) thr MAX_PAUSE_FRAMES fuel
        (argmax (envForSearch e true)) = some s)
    (hR : rightLoopGo (envForSearch e true) thrE MAX_PAUSE_FRAMES fuel
        (argmax (envForSearch e true)) = some en)
    (hs : 0 ≤ s) (hen : 0 ≤ lexicalEnd (envForSearch e true).length word en) :
    slice_noise_reduced_audio_files_byt fuel e n word audio_rate thr thrE true
      = some (AudioOut.slice s (lexicalEnd (envForSearch e true).length word en),
              (s : ℚ) * 256 / 22050,
              (lexicalEnd (envForSearch e true).length word en : ℚ) * 256 / 22050
                - (s : ℚ) * 256 / 22050) := by
  have hT : ∀ i : ℤ, 0 ≤ i → framesToTimeAt n i = (i : ℚ) * 256 / 22050 := by
    intro i hi
    unfold framesToTimeAt
    rw [if_neg (by omega)]
    norm_num [HOP_LENGTH, LIBROSA_SR]
  rw [slice_nondegenerate_eq fuel e n word audio_rate thr thrE true s en hnd hL hR,
      hT s hs, hT _ hen]

/-- Witness for the amended C5: envelope `[0.01, 0.9, 0.01]`, 600 samples,
consonant-final word, `audio_rate = 44100`. -/
theorem C5_times_witness :
    slice_noise_reduced_audio_files_byt 100 [1/100, 9/10, 1/100] 600 ['b'] 44100
        (15/1000) (15/1000) true
      = some (AudioOut.slice 0
                (lexicalEnd (envForSearch [1/100, 9/10, 1/100] true).length ['b'] 2),
              ((0 : ℤ) : ℚ) * 256 / 22050,
              ((lexicalEnd (envForSearch [1/100, 9/10, 1/100] true).length ['b'] 2 : ℤ) : ℚ)
                  * 256 / 22050 - ((0 : ℤ) : ℚ) * 256 / 22050) := by
  exact C5_times_use_default_sample_rate [1/100, 9/10, 1/100] 600 ['b'] 44100
    (15/1000) (15/1000) 100 0 2 (by decide) (by decide) (by decide) (by decide) (by decide)

/-- Claim C6, counterexample: with a reference table containing the word
"Ba" (normalized to key "ba" when the table is built) and a file whose
parenthesized target word is "Ba", the lookup raises `KeyError`: the source
normalizes only the TABLE keys (line 207), while the lookup on line 146
uses the raw word from the filename — the normalized-key lookup the claim
describes would have succeeded. -/
theorem C6_raw_word_lookup_fails :
    process_wav_file (buildRobotTimes [(("Ba").toList, 7/10)]) 100
        ⟨("x(Ba).wav").toList, Except.ok ⟨[1/100, 9/10, 1/100], 600, 22050⟩⟩
      = some (Except.error PErr.keyError) ∧
    lookupQ (buildRobotTimes [(("Ba").toList, 7/10)]) (normalizeKey ("Ba").toList)
      = some (7/10) := by
  exact ⟨by decide, by decide⟩

/-- Claim C6, amended: the reference duration is retrieved under the RAW
word extracted from the filename, not its normalized form; since the table
keys are normalized, retrieval succeeds only for words already in
case-folded, diacritic-free form (raw = normalized key), and then
`reaction_time = onset − duration` as claimed.  For a word containing an
uppercase or accented letter, the raw key is absent and the lookup raises. -/
theorem C6_reaction_time_raw_lookup (tbl : List (List Char × ℚ)) (fuel : ℕ)
    (f : WavFile) (a : AudioData) (word : List Char) (au : AudioOut) (onset dur d : ℚ)
    (h1 : endsWithL f.name wavExt = true)
    (h2 : f.audio = Except.ok a)
    (h3 : extractParen f.name = some word)
    (h4 : slice_noise_reduced_audio_files_byt fuel a.env a.n word a.sr THRESHOLD
        THRESHOLD_END NORMALIZE_RMS = some (au, onset, dur))
    (h5 : lookupQ (buildRobotTimes tbl) word = some d) :
    process_wav_file (buildRobotTimes tbl) fuel f
      = some (Except.ok (some (⟨f.name, onset - d, dur⟩, to_include (onset - d) dur))) := by
  simp only [process_wav_file, h1, h2, h3, h4, h5, eq_self_iff_true, if_true]

/-- Witness for the amended C6: an all-lowercase ASCII word ("ba") is its
own normalized key, so the raw lookup succeeds and the reaction time is
`onset − reference duration`. -/
theorem C6_reaction_time_witness :
    process_wav_file (buildRobotTimes [(("ba").toList, 1/10)]) 100
        ⟨("a(ba).wav").toList, Except.ok ⟨[1/100, 9/10, 1/100], 600, 22050⟩⟩
      = some (Except.ok (some (⟨("a(ba).wav").toList, 0 - 1/10, 512/22050⟩,
          to_include (0 - 1/10) (512/22050)))) := by
  exact C6_reaction_time_raw_lookup [(("ba").toList, 1/10)] 100 _
    ⟨[1/100, 9/10, 1/100], 600, 22050⟩ (("ba").toList) (AudioOut.slice 0 2)
    0 (512/22050) (1/10) (by decide) rfl (by decide) (by decide) (by decide)

/-- Claim C7, counterexample: a batch of one readable file followed by one
corrupt file does NOT skip the corrupt file — the load failure propagates
and the whole batch returns the error, whereas the same batch without the
corrupt file completes normally.  No try/except exists anywhere in
`process_wav_file` or `copy_directory_with_wav_processing`. -/
theorem C7_corrupt_file_aborts_batch :
    copy_directory_with_wav_processing [(("ba").toList, 1/10)] 100
        [⟨("a(ba).wav").toList, Except.ok ⟨[1/100, 9/10, 1/100], 600, 22050⟩⟩,
         ⟨("b(ba).wav").toList, Except.error ()⟩]
      = some (Except.error PErr.loadError) ∧
    copy_directory_with_wav_processing [(("ba").toList, 1/10)] 100
        [⟨("a(ba).wav").toList, Except.ok ⟨[1/100, 9/10, 1/100], 600, 22050⟩⟩]
      = some (Except.ok []) := by
  exact ⟨by decide, by decide⟩

/-- Claim C7, amended: a corrupt or unreadable `.wav` file is NOT caught:
the moment the walk reaches it, the load error propagates out of
`process_wav_file` and aborts the entire batch, whatever files remain. -/
theorem C7_load_error_propagates (robot : List (List Char × ℚ)) (fuel : ℕ)
    (bad : WavFile) (rest : List WavFile) (acc : List FeatRec)
    (h1 : endsWithL (bad.name.map Char.toLower) wavExt = true)
    (h2 : endsWithL bad.name wavExt = true)
    (h3 : bad.audio = Except.error ()) :
    copy_directory_go robot fuel (bad :: rest) acc = some (Except.error PErr.loadError) := by
  simp only [copy_directory_go, process_wav_file, h1, h2, h3, eq_self_iff_true, if_true]

/-- Witness for the amended C7. -/
theorem C7_load_error_witness :
    copy_directory_go [] 0 [⟨("b(ba).wav").toList, Except.error ()⟩] []
      = some (Except.error PErr.loadError) :=
  C7_load_error_propagates [] 0 ⟨("b(ba).wav").toList, Except.error ()⟩ [] []
    (by decide) (by decide) rfl

/-- Claim C8, counterexample: on a degenerate (constant-envelope) file the
feature-validation stage is NOT skipped — it runs on the sentinel values,
including the reference-duration lookup, so a degenerate file whose word is
absent from the table raises `KeyError` instead of being skipped as the
claim implies. -/
theorem C8_validation_runs_on_sentinel :
    process_wav_file [] 100 ⟨("a(zz).wav").toList, Except.ok ⟨[1/2, 1/2], 600, 22050⟩⟩
      = some (Except.error PErr.keyError) := by
  decide

/-- Claim C8, amended: a constant envelope yields the sentinel triple
(-1, -1, -1) and endpoint refinement is skipped, but feature validation
still executes on the sentinels: the reference lookup runs, the reaction
time becomes `-1 - reference_duration`, and the file is excluded from the
report because the sentinel duration -1 fails the acceptance window. -/
theorem C8_sentinel_and_exclusion (robot : List (List Char × ℚ)) (fuel : ℕ)
    (f : WavFile) (a : AudioData) (word : List Char) (d : ℚ)
    (h1 : endsWithL f.name wavExt = true)
    (h2 : f.audio = Except.ok a)
    (h3 : extractParen f.name = some word)
    (h4 : maxE a.env - minE a.env = 0)
    (h5 : lookupQ robot word = some d) :
    slice_noise_reduced_audio_files_byt fuel a.env a.n word a.sr THRESHOLD
        THRESHOLD_END NORMALIZE_RMS = some (AudioOut.sentinel, -1, -1) ∧
    process_wav_file robot fuel f
      = some (Except.ok (some (⟨f.name, -1 - d, -1⟩, false))) := by
  have hslice : slice_noise_reduced_audio_files_byt fuel a.env a.n word a.sr THRESHOLD
      THRESHOLD_END NORMALIZE_RMS = some (AudioOut.sentinel, -1, -1) := by
    unfold slice_noise_reduced_audio_files_byt
    rw [if_pos h4]
  have hflag : to_include (-1 - d) (-1) = false := by
    have hlt : ((-1 : ℚ) < 3/10) := by norm_num
    simp [to_include, hlt]
  refine ⟨hslice, ?_⟩
  simp only [process_wav_file, h1, h2, h3, hslice, h5, hflag, eq_self_iff_true, if_true]

/-- Witness for the amended C8: a silent clip (constant envelope) whose
word is present in the table is excluded with reaction time `-1 - 1`. -/
theorem C8_sentinel_witness :
    slice_noise_reduced_audio_files_byt 100 [1/2, 1/2] 600 (("zz").toList) 22050
        THRESHOLD THRESHOLD_END NORMALIZE_RMS = some (AudioOut.sentinel, -1, -1) ∧
    process_wav_file [(("zz").toList, 1)] 100
        ⟨("a(zz).wav").toList, Except.ok ⟨[1/2, 1/2], 600, 22050⟩⟩
      = some (Except.ok (some (⟨("a(zz).wav").toList, -1 - 1, -1⟩, false))) := by
  exact C8_sentinel_and_exclusion [(("zz").toList, 1)] 100 _
    ⟨[1/2, 1/2], 600, 22050⟩ (("zz").toList) 1 (by decide) rfl (by decide)
    (by decide) (by decide)

/-- Claim C10: a file whose name ends case-insensitively in `.wav` but not
exactly in lowercase `.wav` passes the walker's filter (line 182), makes
`process_wav_file` return `None` via the case-sensitive check on line 130,
and the caller's tuple unpacking of that `None` on line 192 then raises,
aborting the batch rather than silently skipping the file. -/
theorem C10_uppercase_wav_aborts (robot : List (List Char × ℚ)) (fuel : ℕ)
    (f : WavFile) (rest : List WavFile) (acc : List FeatRec)
    (h1 : endsWithL (f.name.map Char.toLower) wavExt = true)
    (h2 : endsWithL f.name wavExt = false) :
    process_wav_file robot fuel f = some (Except.ok none) ∧
    copy_directory_go robot fuel (f :: rest) acc = some (Except.error PErr.unpackError) := by
  have hp : process_wav_file robot fuel f = some (Except.ok none) := by
    simp [process_wav_file, h2]
  refine ⟨hp, ?_⟩
  simp only [copy_directory_go, h1, hp, eq_self_iff_true, if_true]

/-- Witness for C10: the file name `X.WAV`. -/
theorem C10_uppercase_wav_witness :
    process_wav_file [] 0 ⟨("X.WAV").toList, Except.error ()⟩ = some (Except.ok none) ∧
    copy_directory_go [] 0 [⟨("X.WAV").toList, Except.error ()⟩] []
      = some (Except.error PErr.unpackError) :=
  C10_uppercase_wav_aborts [] 0 ⟨("X.WAV").toList, Except.error ()⟩ [] []
    (by decide) (by decide)

/-- Claim C9: the inclusion flag computed on source line 148 is true exactly
when the reaction time lies in the closed interval [-0.5, 2] and the total
duration lies in the closed interval [0.3, 3]; the boundary values are
included because the source excludes only on strict inequalities. -/
theorem C9_acceptance_closed_iff (r d : ℚ) :
    to_include r d = true ↔ (-(1/2) ≤ r ∧ r ≤ 2 ∧ 3/10 ≤ d ∧ d ≤ 3) := by
  unfold to_include
  simp only [Bool.not_eq_true', Bool.or_eq_false_iff, decide_eq_false_iff_not, not_lt]
  constructor
  · rintro ⟨⟨⟨h1, h2⟩, h3⟩, h4⟩
    exact ⟨h2, h1, h3, h4⟩
  · rintro ⟨h2, h1, h3, h4⟩
    exact ⟨⟨⟨h1, h2⟩, h3⟩, h4⟩

/-- Witness for C9: the boundary point (reaction time exactly -0.5,
duration exactly 0.3) is included. -/
theorem C9_acceptance_witness : to_include (-(1/2)) (3/10) = true :=
  (C9_acceptance_closed_iff (-(1/2)) (3/10)).mpr (by norm_num)

end SliceRecordings
